import Mathlib

/-!
# Verification of the LLMChat conversation orchestrator

A shallow embedding of the conversation-orchestration core found in
`validator.ts` / `llmchat.ts`: the response validator (`validateLLMResponse`,
`validateSummaryLength`, `cleanJSON`), the orchestrator (`sendMessage`,
`updateSummary`, `callLLMWithValidation` with its retry/backoff loop), the
pure per-chat state (`Chat`, `Message`), and a small object-heap model of the
conversation store (`makeChat`, `renameChat`, `deleteChat`, `getChats`) that
makes reference identity and deep copying observable.

Conventions of the embedding:
* JavaScript exceptions become `Except`/`Option` values; the error object
  thrown by the retry loop is carried as a value, so "propagated verbatim"
  is value equality.
* `JSON.parse` is embedded as a fuel-based recursive-descent JSON parser
  producing a `Json` value (objects keep JavaScript semantics: duplicate
  keys collapse, the last occurrence wins).
* The asynchronous backend (`executeLLM` wrapped in `executeWithTimeout`)
  is a function from the prompt and the invocation index to either a raw
  string or an error; a timeout is simply one possible error value.
* `Date.now()` timestamps are supplied as explicit arguments.
-/

/-! ## JSON values and the embedding of `JSON.parse` -/

/-- A JSON value as produced by `JSON.parse`.  Numbers keep their lexeme:
no claim inspects numeric values, only the shape of the parse. -/
inductive Json where
  | null
  | bool (b : Bool)
  | num (lexeme : String)
  | str (s : String)
  | arr (elems : List Json)
  | obj (fields : List (String × Json))

/-- Embedding of `typeof v === "object"` in JavaScript: true for objects, arrays and null. -/
def jsTypeofObject : Json → Bool
  | Json.null => true
  | Json.arr _ => true
  | Json.obj _ => true
  | _ => false

/-- Embedding of `v === null` in JavaScript. -/
def jsIsNull : Json → Bool
  | Json.null => true
  | _ => false

/-- Embedding of `k in v` in JavaScript for a parsed JSON value (own properties only;
parsed arrays have no string key such as "reply"). -/
def jsHasKey : Json → String → Bool
  | Json.obj kvs, k => kvs.any (fun p => p.1 == k)
  | _, _ => false

/-- Property access `v[k]` on a parsed JSON value. -/
def jsGet : Json → String → Option Json
  | Json.obj kvs, k => kvs.lookup k
  | _, _ => none

/-- Embedding of `Object.keys(v)` for a parsed JSON value (objects only; the validator
only reaches this point on objects). -/
def jsKeys : Json → List String
  | Json.obj kvs => kvs.map Prod.fst
  | _ => []

/-- Is the value a JSON object (array and null excluded)? -/
def Json.isObj : Json → Bool
  | Json.obj _ => true
  | _ => false

/-- Is the value a JSON string? -/
def Json.isStr : Json → Bool
  | Json.str _ => true
  | _ => false

/-- Skip JSON whitespace (space, tab, line feed, carriage return). -/
def skipWs : List Char → List Char
  | [] => []
  | c :: cs =>
    if c = ' ' ∨ c = '\t' ∨ c = '\n' ∨ c = '\r' then skipWs cs else c :: cs

/-- Value of a hexadecimal digit. -/
def hexVal (c : Char) : Option Nat :=
  let n := c.toNat
  if 48 ≤ n ∧ n ≤ 57 then some (n - 48)
  else if 97 ≤ n ∧ n ≤ 102 then some (n - 87)
  else if 65 ≤ n ∧ n ≤ 70 then some (n - 55)
  else none

/-- Parse the body of a JSON string literal (after the opening quote),
accumulating characters; returns the string and the rest of the input. -/
def parseStringBody (acc : List Char) : List Char → Option (String × List Char)
  | [] => none
  | c :: cs =>
    if c = '"' then some (String.mk acc.reverse, cs)
    else if c = '\\' then
      match cs with
      | [] => none
      | e :: cs2 =>
        if e = '"' then parseStringBody ('"' :: acc) cs2
        else if e = '\\' then parseStringBody ('\\' :: acc) cs2
        else if e = '/' then parseStringBody ('/' :: acc) cs2
        else if e = 'b' then parseStringBody (Char.ofNat 8 :: acc) cs2
        else if e = 'f' then parseStringBody (Char.ofNat 12 :: acc) cs2
        else if e = 'n' then parseStringBody ('\n' :: acc) cs2
        else if e = 'r' then parseStringBody ('\r' :: acc) cs2
        else if e = 't' then parseStringBody ('\t' :: acc) cs2
        else if e = 'u' then
          match cs2 with
          | h1 :: h2 :: h3 :: h4 :: cs3 =>
            match hexVal h1, hexVal h2, hexVal h3, hexVal h4 with
            | some a, some b, some c2, some d =>
              parseStringBody (Char.ofNat (((a * 16 + b) * 16 + c2) * 16 + d) :: acc) cs3
            | _, _, _, _ => none
          | _ => none
        else none
    else if c.toNat < 32 then none
    else parseStringBody (c :: acc) cs

/-- Fractional part of a JSON number, if present. -/
def parseFrac : List Char → Option (List Char × List Char)
  | '.' :: r =>
    let p := r.span Char.isDigit
    if p.1.isEmpty then none else some ('.' :: p.1, p.2)
  | cs => some ([], cs)

/-- Exponent part of a JSON number, if present. -/
def parseExp : List Char → Option (List Char × List Char)
  | [] => some ([], [])
  | c :: r =>
    if c = 'e' ∨ c = 'E' then
      let q := match r with
        | s :: r2 => if s = '+' ∨ s = '-' then ([s], r2) else (([] : List Char), s :: r2)
        | [] => ([], [])
      let p := q.2.span Char.isDigit
      if p.1.isEmpty then none else some (c :: (q.1 ++ p.1), p.2)
    else some ([], c :: r)

/-- Lex a JSON number (strict grammar: optional minus, no leading zeros,
optional fraction and exponent); returns its lexeme. -/
def parseNumberLex (cs : List Char) : Option (String × List Char) :=
  let q := match cs with
    | c :: r => if c = '-' then (['-'], r) else (([] : List Char), cs)
    | [] => ([], cs)
  let p := q.2.span Char.isDigit
  if p.1.isEmpty then none
  else if 1 < p.1.length ∧ p.1.headD 'x' = '0' then none
  else
    match parseFrac p.2 with
    | none => none
    | some fp =>
      match parseExp fp.2 with
      | none => none
      | some ep => some (String.mk (q.1 ++ p.1 ++ fp.1 ++ ep.1), ep.2)

/-- Match a literal keyword (`true`, `false`, `null`). -/
def isLit (lit : List Char) (cs : List Char) : Option (List Char) :=
  if lit.isPrefixOf cs then some (cs.drop lit.length) else none

/-- JavaScript object construction from parsed members: a duplicate key
overwrites the value at the original position. -/
def insertKV (kvs : List (String × Json)) (k : String) (v : Json) : List (String × Json) :=
  if kvs.any (fun p => p.1 == k) then
    kvs.map (fun p => if p.1 == k then (k, v) else p)
  else kvs ++ [(k, v)]

/-- Parser mode: a plain value, the member loop of an object (with the
members accepted so far), or the element loop of an array. -/
inductive PMode where
  | val
  | members (acc : List (String × Json))
  | elems (acc : List Json)

/-- Fuel-based recursive-descent JSON parser (the embedding of the grammar
accepted by `JSON.parse`).  Returns the parsed value and unconsumed input. -/
def parseF : Nat → PMode → List Char → Option (Json × List Char)
  | 0, _, _ => none
  | n + 1, PMode.val, cs =>
    match skipWs cs with
    | [] => none
    | c :: rest =>
      if c = '{' then
        match skipWs rest with
        | '}' :: r2 => some (Json.obj [], r2)
        | cs2 => parseF n (PMode.members []) cs2
      else if c = '[' then
        match skipWs rest with
        | ']' :: r2 => some (Json.arr [], r2)
        | cs2 => parseF n (PMode.elems []) cs2
      else if c = '"' then
        match parseStringBody [] rest with
        | some p => some (Json.str p.1, p.2)
        | none => none
      else if c = 't' then
        match isLit ['t', 'r', 'u', 'e'] (c :: rest) with
        | some r2 => some (Json.bool true, r2)
        | none => none
      else if c = 'f' then
        match isLit ['f', 'a', 'l', 's', 'e'] (c :: rest) with
        | some r2 => some (Json.bool false, r2)
        | none => none
      else if c = 'n' then
        match isLit ['n', 'u', 'l', 'l'] (c :: rest) with
        | some r2 => some (Json.null, r2)
        | none => none
      else
        match parseNumberLex (c :: rest) with
        | some p => some (Json.num p.1, p.2)
        | none => none
  | n + 1, PMode.members acc, cs =>
    match skipWs cs with
    | '"' :: rest =>
      match parseStringBody [] rest with
      | some kp =>
        match skipWs kp.2 with
        | ':' :: r3 =>
          match parseF n PMode.val r3 with
          | some vp =>
            match skipWs vp.2 with
            | ',' :: r5 => parseF n (PMode.members (insertKV acc kp.1 vp.1)) r5
            | '}' :: r5 => some (Json.obj (insertKV acc kp.1 vp.1), r5)
            | _ => none
          | none => none
        | _ => none
      | none => none
    | _ => none
  | n + 1, PMode.elems acc, cs =>
    match parseF n PMode.val cs with
    | some vp =>
      match skipWs vp.2 with
      | ',' :: r3 => parseF n (PMode.elems (acc ++ [vp.1])) r3
      | ']' :: r3 => some (Json.arr (acc ++ [vp.1]), r3)
      | _ => none
    | none => none

/-- The embedding of `JSON.parse`: parse one value, then require only
whitespace to remain.  `none` models a thrown `SyntaxError`. -/
def Json.parse (s : String) : Option Json :=
  match parseF (2 * s.length + 2) PMode.val s.toList with
  | some p => if (skipWs p.2).isEmpty then some p.1 else none
  | none => none

/-! ## `cleanJSON` and `validateLLMResponse` (from `validator.ts`) -/

/-- The three-backtick fence delimiter, as a character list. -/
def fence : List Char := "```".toList

/-- The fence delimiter with its optional `json` label. -/
def fenceJson : List Char := "```json".toList

/-- One pass deleting every occurrence of ```` ``` ```` (preferring the
labelled form ```` ```json ````), exactly as the two global regex
replacements of `cleanJSON` do; fuel-based so that it computes. -/
def stripFencesF : Nat → List Char → List Char
  | 0, cs => cs
  | _ + 1, [] => []
  | n + 1, c :: rest =>
    if fenceJson.isPrefixOf (c :: rest) then stripFencesF n ((c :: rest).drop 7)
    else if fence.isPrefixOf (c :: rest) then stripFencesF n ((c :: rest).drop 3)
    else c :: stripFencesF n rest

/-- Whitespace as recognized by JavaScript `String.prototype.trim` (the
kinds that can occur here). -/
def isWsChar (c : Char) : Bool :=
  c = ' ' ∨ c = '\t' ∨ c = '\n' ∨ c = '\r'

/-- The embedding of JavaScript `.trim()`: drop whitespace at both ends. -/
def jsTrim (s : String) : String :=
  String.mk (((s.toList.dropWhile isWsChar).reverse.dropWhile isWsChar).reverse)

/-- The embedding of JavaScript `.toUpperCase()` on ASCII text. -/
def jsToUpper (s : String) : String :=
  String.mk (s.toList.map Char.toUpper)

/-- Embedding of `cleanJSON(raw)`: remove triple backticks and the optional `json`
label everywhere in the text, then trim surrounding whitespace. -/
def cleanJSON (raw : String) : String :=
  jsTrim (String.mk (stripFencesF raw.length raw.toList))

/-- The distinct failure messages thrown by the validators and the
orchestrator (identified by kind; the interpolated text is irrelevant
to every claim). -/
inductive VError where
  | notValidJSON
  | notObject
  | missingReply
  | replyNotString
  | extraFields
  | summaryTooLong
  | emptyConversation
  | retriesExhausted
deriving DecidableEq

/-- The `LLMReply` interface: `{reply: string}`. -/
structure LLMReply where
  reply : String
deriving DecidableEq

/-- Embedding of `validateLLMResponse(raw)`: clean and parse the raw text, then check
that the result is a non-null object whose only field is the string
`reply`.  Checks appear in source order. -/
def validateLLMResponse (raw : String) : Except VError LLMReply :=
  match Json.parse (cleanJSON raw) with
  | none => Except.error VError.notValidJSON
  | some parsed =>
    if !jsTypeofObject parsed || jsIsNull parsed then Except.error VError.notObject
    else if !jsHasKey parsed "reply" then Except.error VError.missingReply
    else
      match jsGet parsed "reply" with
      | some (Json.str s) =>
        if 1 < (jsKeys parsed).length then Except.error VError.extraFields
        else Except.ok ⟨s⟩
      | _ => Except.error VError.replyNotString

/-! ## Chat state (from `llmchat.ts`) -/

/-- A message role: the source union type `"user" | "llm"`. -/
inductive Role where
  | user
  | llm
deriving DecidableEq

/-- The string value of a role in the source. -/
def Role.str : Role → String
  | Role.user => "user"
  | Role.llm => "llm"

/-- The `Message` interface. -/
structure Message where
  role : Role
  content : String
  timestamp : Nat
deriving DecidableEq

/-- The `Chat` interface. -/
structure Chat where
  name : String
  messages : List Message
  summary : String
  historyString : String
deriving DecidableEq

/-- Embedding of `validateSummaryLength(summary, chat)`: the total conversation length,
floored at 1 and doubled, bounds the summary length. `some` models the
thrown error, `none` a normal return. -/
def validateSummaryLength (summary : String) (chat : Chat) : Option VError :=
  let totalLength := chat.messages.foldl (fun sum m => sum + m.content.length) 0
  let maxLength := max totalLength 1 * 2
  if maxLength < summary.length then some VError.summaryTooLong else none

/-! ## The orchestrator (from `llmchat.ts`) -/

/-- The rendering `[ROLE] content\n` appended to the rolling history by
`appendToHistory`. -/
def renderMsg (m : Message) : String :=
  "[" ++ jsToUpper m.role.str ++ "] " ++ m.content ++ "\n"

/-- Embedding of `appendToHistory(chat, message)`: extend the incremental history. -/
def appendToHistory (chat : Chat) (message : Message) : Chat :=
  { chat with historyString := chat.historyString ++ renderMsg message }

/-- Embedding of `chat.messages.push(msg)`. -/
def pushMessage (chat : Chat) (m : Message) : Chat :=
  { chat with messages := chat.messages ++ [m] }

/-- Embedding of `createConversationPrompt(chatHistory, lastMessage)`: the fixed
conversational template (a pure function of its two inputs). -/
def createConversationPrompt (chatHistory : String) (lastMessage : String) : String :=
  "\nSYSTEM INSTRUCTIONS:\nYou are an AI assistant continuing a chat conversation.\n" ++
  "- Respond naturally in the style of a helpful assistant.\n" ++
  "- Use only the information from the conversation so far and your general knowledge.\n" ++
  "- Do not repeat the entire history in your response.\n" ++
  "- Do not reference this prompt or the system instructions.\n" ++
  "- Keep the response concise and directly relevant to the user's last message.\n\n" ++
  "CONVERSATION SO FAR:\n" ++ chatHistory ++ "\n\n" ++
  "USER'S LAST MESSAGE:\n" ++ lastMessage ++ "\n\n" ++
  "TASK:\nWrite the assistant's next reply.\n" ++
  "Return your next response in strict JSON format:\n\x7b\n\"reply\": \"...\"\n\x7d\n"

/-- Embedding of `createSummaryPrompt(chatHistory)`: the fixed summarization template
(a pure function of its input). -/
def createSummaryPrompt (chatHistory : String) : String :=
  "\nSYSTEM INSTRUCTIONS\nYou are summarizing a conversation between a user and an assistant.\n" ++
  "CRITICAL REQUIREMENTS:\n" ++
  "- Be shorter than the original text.\n" ++
  "- Capture only the key points needed for context.\n" ++
  "- Not include details about future messages that have not yet occurred.\n" ++
  "- Avoid hallucinating or inventing content.\n" ++
  "- Avoid copying entire messages verbatim.\n\n" ++
  "CONVERSATION SO FAR:\n" ++ chatHistory ++ "\n\n" ++
  "TASK:\nSummarize the above conversation in 3-6 sentences, focusing only on the " ++
  "essential topics, decisions, or user requests that may be relevant later.\n" ++
  "Return your next response in strict JSON format:\n\x7b\n\"reply\": \"...\"\n\x7d\n"

/-- An error escaping one attempt of the retry loop: either the error value
with which the backend call failed (network error or timeout — the very
object the promise rejected with), or a validation failure. -/
inductive OrchError (ε : Type) where
  | backendErr (e : ε)
  | valErr (v : VError)

/-- A backend (`GeminiLLM.executeLLM` wrapped in `executeWithTimeout`):
from the prompt and the zero-based invocation index to a raw response or
an error. -/
def Backend (ε : Type) : Type := String → Nat → Except ε String

/-- An extra validator, as passed to `callLLMWithValidation`. -/
def ChatValidator : Type := String → Chat → Option VError

/-- Embedding of `validators.forEach(v => v(response.reply, chat))`: the first thrown
error aborts the attempt. -/
def runValidators : List ChatValidator → String → Chat → Option VError
  | [], _, _ => none
  | v :: vs, s, c =>
    match v s c with
    | some e => some e
    | none => runValidators vs s c

/-- The outcome of `callLLMWithValidation`, together with the observable
trace: how many times the backend was invoked, and the backoff delays
(in milliseconds) awaited between failed attempts. -/
structure CallResult (ε : Type) where
  result : Except (OrchError ε) LLMReply
  invocations : Nat
  waits : List Nat

/-- The body of one attempt: invoke the backend, run structural validation,
then the extra validators in order. -/
def attemptOnce {ε : Type} (backend : Backend ε) (prompt : String)
    (validators : List ChatValidator) (chat : Chat) (idx : Nat) :
    Except (OrchError ε) LLMReply :=
  match backend prompt idx with
  | Except.error e => Except.error (OrchError.backendErr e)
  | Except.ok raw =>
    match validateLLMResponse raw with
    | Except.error v => Except.error (OrchError.valErr v)
    | Except.ok resp =>
      match runValidators validators resp.reply chat with
      | some v => Except.error (OrchError.valErr v)
      | none => Except.ok resp

/-- The retry loop of `callLLMWithValidation`: `remaining` attempts are
left (the current one included), `attempt` is the 1-based attempt counter.
On the last attempt a failure is rethrown as-is; otherwise the loop waits
`500 * attempt` and retries.  `remaining = 0` is the unreachable
`throw` after the loop. -/
def callGo {ε : Type} (backend : Backend ε) (prompt : String)
    (validators : List ChatValidator) (chat : Chat) :
    Nat → Nat → CallResult ε
  | 0, _ => ⟨Except.error (OrchError.valErr VError.retriesExhausted), 0, []⟩
  | 1, attempt =>
    match attemptOnce backend prompt validators chat (attempt - 1) with
    | Except.ok r => ⟨Except.ok r, 1, []⟩
    | Except.error e => ⟨Except.error e, 1, []⟩
  | n + 2, attempt =>
    match attemptOnce backend prompt validators chat (attempt - 1) with
    | Except.ok r => ⟨Except.ok r, 1, []⟩
    | Except.error _ =>
      let rest := callGo backend prompt validators chat (n + 1) (attempt + 1)
      ⟨rest.result, rest.invocations + 1, 500 * attempt :: rest.waits⟩

/-- Embedding of `callLLMWithValidation(llm, prompt, validators, chat, maxRetries)`. -/
def callLLMWithValidation {ε : Type} (backend : Backend ε) (prompt : String)
    (validators : List ChatValidator) (chat : Chat) (maxRetries : Nat) :
    CallResult ε :=
  callGo backend prompt validators chat maxRetries 1

/-- The outcome of `sendMessage` / `updateSummary`: the returned value or
propagated error, the chat state afterwards, and the backend trace. -/
structure OpResult (ε : Type) where
  result : Except (OrchError ε) LLMReply
  chat : Chat
  invocations : Nat
  waits : List Nat

/-- The two-step recording of a message done by `sendMessage`:
`chat.messages.push(msg)` followed by `this.appendToHistory(chat, msg)`. -/
def recordMessage (chat : Chat) (m : Message) : Chat :=
  appendToHistory (pushMessage chat m) m

/-- Embedding of `sendMessage(chat, content, llm)`: record the user message, build the
conversational prompt from the updated history, run the attempt cycle
(no extra validators, default 3 retries), then on success record the
model reply.  `t1`, `t2` are the two `Date.now()` readings. -/
def sendMessage {ε : Type} (chat : Chat) (content : String) (backend : Backend ε)
    (t1 t2 : Nat) : OpResult ε :=
  let userMsg : Message := ⟨Role.user, content, t1⟩
  let chat1 := recordMessage chat userMsg
  let prompt := createConversationPrompt chat1.historyString content
  let call := callLLMWithValidation backend prompt [] chat1 3
  match call.result with
  | Except.error e => ⟨Except.error e, chat1, call.invocations, call.waits⟩
  | Except.ok resp =>
    let llmMsg : Message := ⟨Role.llm, resp.reply, t2⟩
    ⟨Except.ok resp, recordMessage chat1 llmMsg, call.invocations, call.waits⟩

/-- Embedding of `validateSummaryLength` in the shape expected by the validator list. -/
def summaryLengthValidator : ChatValidator := validateSummaryLength

/-- Embedding of `updateSummary(chat, llm)`: refuse an empty chat before any backend
call; otherwise run the attempt cycle with the summary-length validator
and on success overwrite `chat.summary`. -/
def updateSummary {ε : Type} (chat : Chat) (backend : Backend ε) : OpResult ε :=
  if chat.messages.length = 0 then
    ⟨Except.error (OrchError.valErr VError.emptyConversation), chat, 0, []⟩
  else
    let call := callLLMWithValidation backend (createSummaryPrompt chat.historyString)
      [summaryLengthValidator] chat 3
    match call.result with
    | Except.error e => ⟨Except.error e, chat, call.invocations, call.waits⟩
    | Except.ok resp => ⟨Except.ok resp, { chat with summary := resp.reply }, call.invocations, call.waits⟩

/-- Embedding of `makeChat(name)` as it concerns a single conversation: the fresh chat
value that the store registers and returns. -/
def makeChat (name : String) : Chat :=
  { name := name, messages := [], summary := "", historyString := "" }

/-- Embedding of `renameChat(chat, newName)`: in-place field mutation. -/
def renameChat (chat : Chat) (newName : String) : Chat :=
  { chat with name := newName }

/-! ## Sequences of operations on one conversation -/

/-- One operation applied to a single conversation (`deleteChat` only
removes the chat from the store and `getChats` does not mutate, so the
operations that can touch a chat's fields are these). -/
inductive ChatOp (ε : Type) where
  | send (content : String) (backend : Backend ε) (t1 t2 : Nat)
  | summarize (backend : Backend ε)
  | rename (newName : String)

/-- Apply one operation to a chat (keeping the post-state, whatever the
backend outcome was). -/
def applyChatOp {ε : Type} (chat : Chat) : ChatOp ε → Chat
  | ChatOp.send content backend t1 t2 => (sendMessage chat content backend t1 t2).chat
  | ChatOp.summarize backend => (updateSummary chat backend).chat
  | ChatOp.rename newName => renameChat chat newName

/-- Apply a sequence of operations in order. -/
def applyChatOps {ε : Type} (chat : Chat) (ops : List (ChatOp ε)) : Chat :=
  ops.foldl applyChatOp chat

/-- The concatenation, in append order, of each message's rendering. -/
def renderAll : List Message → String
  | [] => ""
  | m :: rest => renderMsg m ++ renderAll rest

/-- The rolling-history invariant: `historyString` is exactly the
concatenation of the renderings of `messages`, in append order. -/
def histInv (chat : Chat) : Prop :=
  chat.historyString = renderAll chat.messages

/-! ## The conversation store as an object heap

`this.chats` holds references to mutable chat objects; `deleteChat`
filters by reference identity and `getChats` builds fresh objects with
element-wise copies of the message objects.  To make reference identity
and copying observable, chats and messages live at numeric references in
a heap; `next` is the next fresh reference. -/

namespace Store

/-- A message object on the heap (`role` is the raw string of the source). -/
structure MsgObj where
  role : String
  content : String
  timestamp : Nat

/-- A chat object on the heap; `msgs` is its message array, holding
references to message objects. -/
structure ChatObj where
  name : String
  summary : String
  historyString : String
  msgs : List Nat

/-- The world: both heaps, the `this.chats` registry (references in
registration order) and the allocation counter. -/
structure World where
  chatHeap : List (Nat × ChatObj)
  msgHeap : List (Nat × MsgObj)
  store : List Nat
  next : Nat

/-- The empty world: a fresh `LLMChat` instance. -/
def W0 : World := ⟨[], [], [], 0⟩

/-- Read a chat object (a dangling reference reads as a default object;
reachable worlds never produce one). -/
def lookupChat (w : World) (r : Nat) : ChatObj :=
  (w.chatHeap.lookup r).getD ⟨"", "", "", []⟩

/-- Read a message object. -/
def lookupMsg (w : World) (r : Nat) : MsgObj :=
  (w.msgHeap.lookup r).getD ⟨"", "", 0⟩

/-- Overwrite the chat object at a reference (entries shadow). -/
def setChat (w : World) (r : Nat) (c : ChatObj) : World :=
  { w with chatHeap := (r, c) :: w.chatHeap }

/-- Overwrite the message object at a reference. -/
def setMsg (w : World) (r : Nat) (m : MsgObj) : World :=
  { w with msgHeap := (r, m) :: w.msgHeap }

/-- Allocate a fresh message object. -/
def allocMsg (w : World) (m : MsgObj) : World × Nat :=
  (⟨w.chatHeap, (w.next, m) :: w.msgHeap, w.store, w.next + 1⟩, w.next)

/-- Allocate a fresh chat object. -/
def allocChat (w : World) (c : ChatObj) : World × Nat :=
  (⟨(w.next, c) :: w.chatHeap, w.msgHeap, w.store, w.next + 1⟩, w.next)

/-- Embedding of `makeChat(name)`: allocate a fresh empty chat object and register it. -/
def makeChat (w : World) (name : String) : World × Nat :=
  let p := allocChat w ⟨name, "", "", []⟩
  ({ p.1 with store := p.1.store ++ [p.2] }, p.2)

/-- Embedding of `deleteChat(chat)`: `this.chats = this.chats.filter(c => c !== chat)`. -/
def deleteChat (w : World) (r : Nat) : World :=
  { w with store := w.store.filter (fun x => x ≠ r) }

/-- Embedding of `renameChat(chat, newName)`: in-place field mutation. -/
def renameChat (w : World) (r : Nat) (newName : String) : World :=
  setChat w r { lookupChat w r with name := newName }

/-- A message arriving in a chat (the message-append step of `sendMessage`):
allocate the message object and push its reference onto the chat's array. -/
def pushMsg (w : World) (r : Nat) (m : MsgObj) : World :=
  let p := allocMsg w m
  setChat p.1 r { lookupChat p.1 r with msgs := (lookupChat p.1 r).msgs ++ [p.2] }

/-- Embedding of `chat.messages.map(msg => ({...msg}))`: allocate element-wise copies of
a list of message objects, returning the new references. -/
def copyMsgList (w : World) : List Nat → World × List Nat
  | [] => (w, [])
  | r :: rs =>
    let p := allocMsg w (lookupMsg w r)
    let q := copyMsgList p.1 rs
    (q.1, p.2 :: q.2)

/-- The copy of one chat built by `getChats`: a fresh object with the same
scalar fields and element-wise copied messages. -/
def copyChat (w : World) (r : Nat) : World × Nat :=
  let c := lookupChat w r
  let p := copyMsgList w c.msgs
  allocChat p.1 ⟨c.name, c.summary, c.historyString, p.2⟩

/-- Copy each chat of a list of references, in order. -/
def copyChats (w : World) : List Nat → World × List Nat
  | [] => (w, [])
  | r :: rs =>
    let p := copyChat w r
    let q := copyChats p.1 rs
    (q.1, p.2 :: q.2)

/-- Embedding of `getChats()`: return fresh copies of all registered chats, in
registration order.  `this.chats` itself is not modified. -/
def getChats (w : World) : World × List Nat :=
  copyChats w w.store

/-- One store-level operation.  `create`, `rename` and `delete` are the
operations of the claim; `arrive` (a message append) is included so that
conversations with messages are covered as well. -/
inductive StoreOp where
  | create (name : String)
  | rename (r : Nat) (newName : String)
  | delete (r : Nat)
  | arrive (r : Nat) (m : MsgObj)

/-- Apply one store operation. -/
def applyOp (w : World) : StoreOp → World
  | StoreOp.create name => (makeChat w name).1
  | StoreOp.rename r newName => renameChat w r newName
  | StoreOp.delete r => deleteChat w r
  | StoreOp.arrive r m => pushMsg w r m

/-- Apply a sequence of store operations, in order. -/
def applyOps (w : World) (ops : List StoreOp) : World :=
  ops.foldl applyOp w

/-- The pure value of a chat object: every field dereferenced.  Two
conversations render the same value exactly when a caller can't tell
them apart by reading. -/
structure ChatVal where
  name : String
  summary : String
  historyString : String
  msgs : List MsgObj

/-- Dereference a chat completely. -/
def chatView (w : World) (r : Nat) : ChatVal :=
  let c := lookupChat w r
  ⟨c.name, c.summary, c.historyString, c.msgs.map (lookupMsg w)⟩

/-- What a reader of the store sees: each registered conversation's value,
in registration order. -/
def storeView (w : World) : List ChatVal :=
  w.store.map (chatView w)

/-- Every registered reference is allocated (below `next`), and so is every
message reference it holds. -/
def wf (w : World) : Prop :=
  ∀ r ∈ w.store, r < w.next ∧ ∀ m ∈ (lookupChat w r).msgs, m < w.next

end Store

/-! ## Concrete fixtures used by the theorems -/

/-- The raw backend response of the end-to-end scenario. -/
def helloRaw : String := "\x7b\"reply\":\"Hello!\"\x7d"

/-- A backend that always answers with `helloRaw`. -/
def helloBackend : Backend Unit := fun _ _ => Except.ok helloRaw

/-- A backend that always fails. -/
def failBackend : Backend String := fun _ _ => Except.error "backend down"

/-- The single `sendMessage` run of the end-to-end scenario (with
timestamps 0 and 1). -/
def c1Run : OpResult Unit := sendMessage (makeChat "X") "Hi" helloBackend 0 1

/-- A conversation whose messages total exactly 10 characters. -/
def chatTen : Chat := ⟨"c", [⟨Role.user, "aaaaaaaaaa", 0⟩], "", "[USER] aaaaaaaaaa\n"⟩

/-- A key list without duplicates (what `Object.keys` of a parsed object
always yields). -/
def nodupKeys (kvs : List (String × Json)) : Prop :=
  (kvs.map Prod.fst).Nodup

/-- The failure condition of the spec, stated in its words: the stripped
text is not parseable as JSON, or the parsed value is not an object, or no
`reply` key is present, or `reply` is not a string, or the object has a
key other than `reply`. -/
def specMalformed (raw : String) : Prop :=
  Json.parse (cleanJSON raw) = none ∨
  (∃ v, Json.parse (cleanJSON raw) = some v ∧ v.isObj = false) ∨
  (∃ kvs, Json.parse (cleanJSON raw) = some (Json.obj kvs) ∧ kvs.lookup "reply" = none) ∨
  (∃ kvs j, Json.parse (cleanJSON raw) = some (Json.obj kvs) ∧
    kvs.lookup "reply" = some j ∧ j.isStr = false) ∨
  (∃ kvs k, Json.parse (cleanJSON raw) = some (Json.obj kvs) ∧
    k ∈ kvs.map Prod.fst ∧ k ≠ "reply")

/-! ## Helper lemmas -/

theorem renderAll_append (l : List Message) (m : Message) :
    renderAll (l ++ [m]) = renderAll l ++ renderMsg m := by
  induction l with
  | nil => simp [renderAll]
  | cons a t ih => simp [renderAll, ih, String.append_assoc]

theorem histInv_recordMessage {c : Chat} (m : Message) (h : histInv c) :
    histInv (recordMessage c m) := by
  unfold histInv recordMessage appendToHistory pushMessage at *
  simp [renderAll_append, h]

theorem sendMessage_shape {ε : Type} (chat : Chat) (content : String)
    (backend : Backend ε) (t1 t2 : Nat) :
    (sendMessage chat content backend t1 t2).chat =
      match (sendMessage chat content backend t1 t2).result with
      | Except.ok rep =>
        recordMessage (recordMessage chat ⟨Role.user, content, t1⟩) ⟨Role.llm, rep.reply, t2⟩
      | Except.error _ => recordMessage chat ⟨Role.user, content, t1⟩ := by
  unfold sendMessage
  cases h : (callLLMWithValidation backend
      (createConversationPrompt (recordMessage chat ⟨Role.user, content, t1⟩).historyString content)
      [] (recordMessage chat ⟨Role.user, content, t1⟩) 3).result <;>
    simp [h]

theorem updateSummary_shape {ε : Type} (chat : Chat) (backend : Backend ε) :
    (updateSummary chat backend).chat =
      match (updateSummary chat backend).result with
      | Except.ok rep => { chat with summary := rep.reply }
      | Except.error _ => chat := by
  unfold updateSummary
  by_cases h : chat.messages.length = 0
  · simp [h]
  · simp only [h, if_false]
    cases hr : (callLLMWithValidation backend (createSummaryPrompt chat.historyString)
        [summaryLengthValidator] chat 3).result <;> simp [hr]

theorem updateSummary_fields {ε : Type} (chat : Chat) (backend : Backend ε) :
    (updateSummary chat backend).chat.messages = chat.messages ∧
    (updateSummary chat backend).chat.historyString = chat.historyString := by
  rw [updateSummary_shape]
  cases (updateSummary chat backend).result <;> simp

theorem attemptOnce_congr {ε : Type} {b1 b2 : Backend ε} {prompt : String}
    (validators : List ChatValidator) (chat : Chat) (idx : Nat)
    (h : b1 prompt idx = b2 prompt idx) :
    attemptOnce b1 prompt validators chat idx = attemptOnce b2 prompt validators chat idx := by
  unfold attemptOnce
  rw [h]

theorem callGo_congr {ε : Type} (b1 b2 : Backend ε) (prompt : String)
    (validators : List ChatValidator) (chat : Chat)
    (h : ∀ i, b1 prompt i = b2 prompt i) :
    ∀ rem att, callGo b1 prompt validators chat rem att = callGo b2 prompt validators chat rem att
  | 0, _ => rfl
  | 1, att => by
    unfold callGo
    rw [attemptOnce_congr validators chat (att - 1) (h (att - 1))]
  | n + 2, att => by
    unfold callGo
    rw [attemptOnce_congr validators chat (att - 1) (h (att - 1)),
      callGo_congr b1 b2 prompt validators chat h (n + 1) (att + 1)]

theorem callGo_invocations_le {ε : Type} (b : Backend ε) (p : String)
    (v : List ChatValidator) (c : Chat) :
    ∀ rem att, (callGo b p v c rem att).invocations ≤ rem
  | 0, _ => Nat.le_refl 0
  | 1, att => by
    unfold callGo
    cases attemptOnce b p v c (att - 1) <;> simp
  | n + 2, att => by
    unfold callGo
    cases attemptOnce b p v c (att - 1) with
    | ok r => simp
    | error e =>
      have ih := callGo_invocations_le b p v c (n + 1) (att + 1)
      simp only [CallResult.mk.injEq]
      omega

theorem histInv_applyChatOp {ε : Type} (c : Chat) (op : ChatOp ε) (h : histInv c) :
    histInv (applyChatOp c op) := by
  cases op with
  | send content backend t1 t2 =>
    show histInv (sendMessage c content backend t1 t2).chat
    rw [sendMessage_shape]
    cases (sendMessage c content backend t1 t2).result with
    | ok rep => exact histInv_recordMessage _ (histInv_recordMessage _ h)
    | error e => exact histInv_recordMessage _ h
  | summarize backend =>
    show histInv (updateSummary c backend).chat
    unfold histInv
    rw [(updateSummary_fields c backend).1, (updateSummary_fields c backend).2]
    exact h
  | rename newName => simpa [histInv, renameChat] using h

theorem applyChatOp_extends {ε : Type} (c : Chat) (op : ChatOp ε) :
    ∃ s, (applyChatOp c op).historyString = c.historyString ++ s := by
  cases op with
  | send content backend t1 t2 =>
    show ∃ s, (sendMessage c content backend t1 t2).chat.historyString = c.historyString ++ s
    rw [sendMessage_shape]
    cases (sendMessage c content backend t1 t2).result with
    | ok rep =>
      exact ⟨renderMsg ⟨Role.user, content, t1⟩ ++ renderMsg ⟨Role.llm, rep.reply, t2⟩,
        by simp [recordMessage, appendToHistory, pushMessage, String.append_assoc]⟩
    | error e => exact ⟨renderMsg ⟨Role.user, content, t1⟩, rfl⟩
  | summarize backend =>
    refine ⟨"", ?_⟩
    show (updateSummary c backend).chat.historyString = c.historyString ++ ""
    rw [(updateSummary_fields c backend).2]
    simp
  | rename newName => exact ⟨"", by simp [applyChatOp, renameChat]⟩

theorem histInv_applyChatOps {ε : Type} (c : Chat) (ops : List (ChatOp ε)) (h : histInv c) :
    histInv (applyChatOps c ops) := by
  induction ops generalizing c with
  | nil => exact h
  | cons op t ih => exact ih _ (histInv_applyChatOp _ _ h)

theorem foldl_content_length (l : List Message) (n : Nat) :
    l.foldl (fun sum m => sum + m.content.length) n =
      n + (l.map (fun m => m.content.length)).sum := by
  induction l generalizing n with
  | nil => simp
  | cons a t ih => simp [List.foldl_cons, ih]; omega

theorem validateSummaryLength_eq (s : String) (chat : Chat) :
    validateSummaryLength s chat =
      if 2 * max ((chat.messages.map (fun m => m.content.length)).sum) 1 < s.length
      then some VError.summaryTooLong else none := by
  unfold validateSummaryLength
  rw [foldl_content_length, Nat.zero_add, Nat.mul_comm]

/-! ## Claim theorems -/

/-- C1 (counterexample): in the end-to-end scenario — conversation "X",
user text "Hi", backend answering `{"reply":"Hello!"}` — the resulting
`rollingHistory` is `"[USER] Hi\n[LLM] Hello!\n"` (the source renders the
model role as `LLM`), so it is NOT the string `"[USER] Hi\n[MODEL] Hello!\n"`
asserted by the claim. -/
theorem c1_history_not_model :
    c1Run.chat.historyString = "[USER] Hi\n[LLM] Hello!\n" ∧
    c1Run.chat.historyString ≠ "[USER] Hi\n[MODEL] Hello!\n" :=
  ⟨rfl, by decide⟩

/-- C1 (amended): starting from a freshly created conversation named "X",
a single `sendMessage` with user text "Hi" against a backend returning
`{"reply":"Hello!"}` leaves exactly the two messages
`[{user,"Hi"}, {llm,"Hello!"}]` in that order, `rollingHistory` equal to
`"[USER] Hi\n[LLM] Hello!\n"`, and `summary` equal to the empty string. -/
theorem c1_end_to_end (t1 t2 : Nat) :
    (sendMessage (makeChat "X") "Hi" helloBackend t1 t2).result = Except.ok ⟨"Hello!"⟩ ∧
    (sendMessage (makeChat "X") "Hi" helloBackend t1 t2).chat.messages =
      [⟨Role.user, "Hi", t1⟩, ⟨Role.llm, "Hello!", t2⟩] ∧
    (sendMessage (makeChat "X") "Hi" helloBackend t1 t2).chat.historyString =
      "[USER] Hi\n[LLM] Hello!\n" ∧
    (sendMessage (makeChat "X") "Hi" helloBackend t1 t2).chat.summary = "" ∧
    (sendMessage (makeChat "X") "Hi" helloBackend t1 t2).chat.name = "X" :=
  ⟨rfl, rfl, rfl, rfl, rfl⟩

/-- C2: after every sequence of operations on a conversation created by
`makeChat` (sends, summary updates, renames — whatever the backend
outcomes), `rollingHistory` equals exactly the concatenation, in append
order, of each message rendered as `[ROLE] content\n` with the role
upper-cased; and every single operation only ever extends the history by
a suffix, never rewrites it. -/
theorem c2_rolling_history_invariant (ε : Type) (name : String) (ops : List (ChatOp ε)) :
    histInv (applyChatOps (makeChat name) ops) ∧
    ∀ (c : Chat) (op : ChatOp ε), ∃ s, (applyChatOp c op).historyString = c.historyString ++ s :=
  ⟨histInv_applyChatOps (makeChat name) ops rfl, fun c op => applyChatOp_extends c op⟩

/-- C3: the attempt cycle makes at most `maxRetries` backend invocations
(3 by default); with a backend failing twice then succeeding, `sendMessage`
returns the successful reply after exactly 3 invocations with linear
backoff waits 500·1 and 500·2 between failed attempts, and records the
model message; with a backend failing on all 3 attempts, `sendMessage`
propagates the third attempt's error value verbatim, has waited only
after the first two failures, and the conversation retains only the user
message. -/
theorem c3_retry_protocol (ε : Type) (e1 e2 e3 : ε) (chat : Chat) (content : String)
    (t1 t2 : Nat) :
    (∀ (backend : Backend ε) (prompt : String) (validators : List ChatValidator)
      (c : Chat) (maxRetries : Nat),
      (callLLMWithValidation backend prompt validators c maxRetries).invocations ≤ maxRetries) ∧
    (sendMessage chat content
        (fun _ i => if i = 0 then Except.error e1 else if i = 1 then Except.error e2
          else Except.ok helloRaw) t1 t2).result = Except.ok ⟨"Hello!"⟩ ∧
    (sendMessage chat content
        (fun _ i => if i = 0 then Except.error e1 else if i = 1 then Except.error e2
          else Except.ok helloRaw) t1 t2).invocations = 3 ∧
    (sendMessage chat content
        (fun _ i => if i = 0 then Except.error e1 else if i = 1 then Except.error e2
          else Except.ok helloRaw) t1 t2).waits = [500 * 1, 500 * 2] ∧
    (sendMessage chat content
        (fun _ i => if i = 0 then Except.error e1 else if i = 1 then Except.error e2
          else Except.ok helloRaw) t1 t2).chat =
      recordMessage (recordMessage chat ⟨Role.user, content, t1⟩) ⟨Role.llm, "Hello!", t2⟩ ∧
    (sendMessage chat content
        (fun _ i => Except.error (if i = 0 then e1 else if i = 1 then e2 else e3))
        t1 t2).result = Except.error (OrchError.backendErr e3) ∧
    (sendMessage chat content
        (fun _ i => Except.error (if i = 0 then e1 else if i = 1 then e2 else e3))
        t1 t2).invocations = 3 ∧
    (sendMessage chat content
        (fun _ i => Except.error (if i = 0 then e1 else if i = 1 then e2 else e3))
        t1 t2).waits = [500 * 1, 500 * 2] ∧
    (sendMessage chat content
        (fun _ i => Except.error (if i = 0 then e1 else if i = 1 then e2 else e3))
        t1 t2).chat = recordMessage chat ⟨Role.user, content, t1⟩ :=
  ⟨fun backend prompt validators c maxRetries =>
    callGo_invocations_le backend prompt validators c maxRetries 1,
    rfl, rfl, rfl, rfl, rfl, rfl, rfl, rfl⟩

/-- C4: `sendMessage` records exactly one user message (and the matching
history extension) no matter what the backend does — on failure the chat
holds exactly the old messages plus that user message (no rollback), on
success additionally the one model message; the first `messages.length+1`
entries are always the old messages plus the user message; and the
recording happens before any backend call: the backend is consulted only
at the prompt built from the already-extended history. -/
theorem c4_user_recorded_before_backend (ε : Type) (chat : Chat) (content : String)
    (backend : Backend ε) (t1 t2 : Nat) :
    ((sendMessage chat content backend t1 t2).chat =
      match (sendMessage chat content backend t1 t2).result with
      | Except.ok rep =>
        recordMessage (recordMessage chat ⟨Role.user, content, t1⟩) ⟨Role.llm, rep.reply, t2⟩
      | Except.error _ => recordMessage chat ⟨Role.user, content, t1⟩) ∧
    ((sendMessage chat content backend t1 t2).chat.messages.take (chat.messages.length + 1) =
      chat.messages ++ [⟨Role.user, content, t1⟩]) ∧
    (∀ backend2 : Backend ε,
      (∀ i, backend (createConversationPrompt
              (chat.historyString ++ renderMsg ⟨Role.user, content, t1⟩) content) i =
            backend2 (createConversationPrompt
              (chat.historyString ++ renderMsg ⟨Role.user, content, t1⟩) content) i) →
      sendMessage chat content backend t1 t2 = sendMessage chat content backend2 t1 t2) := by
  refine ⟨sendMessage_shape chat content backend t1 t2, ?_, ?_⟩
  · rw [sendMessage_shape chat content backend t1 t2]
    cases (sendMessage chat content backend t1 t2).result with
    | ok rep =>
      show ((chat.messages ++ [(⟨Role.user, content, t1⟩ : Message)]) ++
        [(⟨Role.llm, rep.reply, t2⟩ : Message)]).take (chat.messages.length + 1) =
        chat.messages ++ [(⟨Role.user, content, t1⟩ : Message)]
      rw [show chat.messages.length + 1 =
          (chat.messages ++ [(⟨Role.user, content, t1⟩ : Message)]).length by simp]
      exact List.take_left _ _
    | error e =>
      show (chat.messages ++ [(⟨Role.user, content, t1⟩ : Message)]).take
          (chat.messages.length + 1) =
        chat.messages ++ [(⟨Role.user, content, t1⟩ : Message)]
      rw [show chat.messages.length + 1 =
          (chat.messages ++ [(⟨Role.user, content, t1⟩ : Message)]).length by simp]
      exact List.take_length _
  · intro backend2 h
    have hc : callLLMWithValidation backend
        (createConversationPrompt (recordMessage chat ⟨Role.user, content, t1⟩).historyString content)
        [] (recordMessage chat ⟨Role.user, content, t1⟩) 3 =
      callLLMWithValidation backend2
        (createConversationPrompt (recordMessage chat ⟨Role.user, content, t1⟩).historyString content)
        [] (recordMessage chat ⟨Role.user, content, t1⟩) 3 :=
      callGo_congr backend backend2 _ _ _ h 3 1
    simp only [sendMessage]
    rw [hc]

/-- C4 (witness): with a concretely failing backend the conversation ends
with exactly the user message recorded, and the extensionality part holds
at a concrete backend pair. -/
theorem c4_witness :
    (sendMessage (makeChat "X") "Hi" failBackend 0 1).chat =
      recordMessage (makeChat "X") ⟨Role.user, "Hi", 0⟩ ∧
    sendMessage (makeChat "X") "Hi" failBackend 0 1 =
      sendMessage (makeChat "X") "Hi" failBackend 0 1 :=
  ⟨((c4_user_recorded_before_backend String (makeChat "X") "Hi" failBackend 0 1).1).trans rfl,
    (c4_user_recorded_before_backend String (makeChat "X") "Hi" failBackend 0 1).2.2
      failBackend (fun _ => rfl)⟩

/-- C6: `updateSummary` is atomic on `summary`: on success the chat is the
old chat with `summary` overwritten by the reply and nothing else changed
(no message appended); on failure the chat is exactly the old chat, any
prior summary persisting. -/
theorem c6_update_summary_atomic (ε : Type) (chat : Chat) (backend : Backend ε) :
    ((updateSummary chat backend).chat =
      match (updateSummary chat backend).result with
      | Except.ok rep => { chat with summary := rep.reply }
      | Except.error _ => chat) ∧
    (updateSummary chat backend).chat.messages = chat.messages ∧
    (updateSummary chat backend).chat.historyString = chat.historyString :=
  ⟨updateSummary_shape chat backend, (updateSummary_fields chat backend).1,
    (updateSummary_fields chat backend).2⟩

/-- C7: `validateSummaryLength` fails exactly when the summary length
exceeds twice the total message content length (floored at 1), the only
failure it produces is `SummaryTooLong`, and on a conversation totalling
10 characters a 20-character summary passes while a 21-character one
fails. -/
theorem c7_summary_length_bound (s : String) (chat : Chat) :
    ((validateSummaryLength s chat).isSome = true ↔
      s.length > 2 * max ((chat.messages.map (fun m => m.content.length)).sum) 1) ∧
    (validateSummaryLength s chat = some VError.summaryTooLong ∨
      validateSummaryLength s chat = none) ∧
    validateSummaryLength (String.mk (List.replicate 20 'b')) chatTen = none ∧
    validateSummaryLength (String.mk (List.replicate 21 'b')) chatTen =
      some VError.summaryTooLong := by
  refine ⟨?_, ?_, rfl, rfl⟩
  · rw [validateSummaryLength_eq]
    split <;> simp <;> omega
  · rw [validateSummaryLength_eq]
    split <;> simp

/-- C8: on a conversation with zero messages `updateSummary` fails
immediately with the empty-conversation error, performs no backend
invocation, and leaves the conversation untouched. -/
theorem c8_empty_conversation (ε : Type) (chat : Chat) (backend : Backend ε)
    (h : chat.messages = []) :
    updateSummary chat backend =
      ⟨Except.error (OrchError.valErr VError.emptyConversation), chat, 0, []⟩ := by
  unfold updateSummary
  simp [h]

/-- C8 (witness): the freshly created conversation is empty and
`updateSummary` on it fails without calling the backend. -/
theorem c8_witness :
    (makeChat "E").messages = [] ∧
    updateSummary (makeChat "E") (fun _ _ => (Except.ok "x" : Except Unit String)) =
      ⟨Except.error (OrchError.valErr VError.emptyConversation), makeChat "E", 0, []⟩ :=
  ⟨rfl, c8_empty_conversation Unit (makeChat "E") (fun _ _ => Except.ok "x") rfl⟩

/-- C10: `cleanJSON` deletes a triple-backtick sequence occurring inside a
JSON string as well: the raw text `{"reply":"a```b"}` is well-formed JSON
whose `reply` is `a```b`, yet validation returns the different reply
`"ab"`. -/
theorem c10_fences_deleted_everywhere :
    Json.parse "\x7b\"reply\":\"a```b\"\x7d" =
      some (Json.obj [("reply", Json.str "a```b")]) ∧
    cleanJSON "\x7b\"reply\":\"a```b\"\x7d" = "\x7b\"reply\":\"ab\"\x7d" ∧
    validateLLMResponse "\x7b\"reply\":\"a```b\"\x7d" = Except.ok ⟨"ab"⟩ ∧
    "ab" ≠ "a```b" :=
  ⟨rfl, rfl, rfl, by decide⟩

/-! ## Lemmas for the validator characterization (C5) -/

theorem any_key_eq_lookup_isSome (kvs : List (String × Json)) (k : String) :
    kvs.any (fun p => p.1 == k) = (kvs.lookup k).isSome := by
  induction kvs with
  | nil => rfl
  | cons a t ih =>
    cases a with
    | mk a1 a2 =>
      by_cases h : a1 = k
      · subst h
        simp [List.lookup]
      · have h2 : (k == a1) = false := by simp [Ne.symm h]
        have h3 : (a1 == k) = false := by simp [h]
        simp [List.lookup, h2, h3, ih]

theorem lookup_some_mem {β : Type} (kvs : List (String × β)) (k : String) (v : β)
    (h : kvs.lookup k = some v) : k ∈ kvs.map Prod.fst := by
  induction kvs with
  | nil => simp [List.lookup] at h
  | cons a t ih =>
    cases a with
    | mk a1 a2 =>
      by_cases hk : k = a1
      · simp [hk]
      · have h2 : (k == a1) = false := by simp [hk]
        simp only [List.lookup, h2] at h
        have := ih h
        simp only [List.map_cons, List.mem_cons]
        exact Or.inr this

theorem two_distinct_mem_length {α : Type} (l : List α) (a b : α)
    (ha : a ∈ l) (hb : b ∈ l) (hne : a ≠ b) : 1 < l.length := by
  cases l with
  | nil => cases ha
  | cons c t =>
    rcases List.mem_cons.mp ha with h1 | h1
    · rcases List.mem_cons.mp hb with h2 | h2
      · exact absurd (h1.trans h2.symm) hne
      · have := List.length_pos_of_mem h2
        simp only [List.length_cons]
        omega
    · have := List.length_pos_of_mem h1
      simp only [List.length_cons]
      omega

theorem nodup_key_other_than (keys : List String) (h : keys.Nodup)
    (hlen : 1 < keys.length) : ∃ k ∈ keys, k ≠ "reply" := by
  cases keys with
  | nil => simp at hlen
  | cons a t =>
    cases t with
    | nil => simp at hlen
    | cons b u =>
      have hab : a ≠ b := by
        have := List.nodup_cons.mp h
        intro hcontra
        exact this.1 (hcontra ▸ List.mem_cons_self b u)
      by_cases ha : a = "reply"
      · exact ⟨b, List.mem_cons.mpr (Or.inr (List.mem_cons_self b u)),
          fun hb => hab ((ha.trans hb.symm))⟩
      · exact ⟨a, List.mem_cons_self a (b :: u), ha⟩

theorem insertKV_nodupKeys (kvs : List (String × Json)) (k : String) (v : Json)
    (h : nodupKeys kvs) : nodupKeys (insertKV kvs k v) := by
  unfold insertKV
  by_cases hc : kvs.any (fun p => p.1 == k)
  · rw [if_pos hc]
    unfold nodupKeys at *
    rw [List.map_map]
    have : ((fun p : String × Json => p.1) ∘ fun p : String × Json =>
        if p.1 == k then (k, v) else p) = fun p : String × Json => p.1 := by
      funext p
      by_cases hp : p.1 = k
      · simp [hp]
      · simp [hp]
    rw [show (Prod.fst ∘ fun p : String × Json => if p.1 == k then (k, v) else p) =
        fun p : String × Json => p.1 from this]
    exact h
  · rw [if_neg hc]
    unfold nodupKeys at *
    rw [List.map_append]
    have hk : k ∉ kvs.map Prod.fst := by
      intro hmem
      apply hc
      rw [List.any_eq_true]
      rcases List.mem_map.mp hmem with ⟨p, hp, hp2⟩
      exact ⟨p, hp, by simp [hp2]⟩
    rw [List.nodup_append]
    refine ⟨h, by simp, ?_⟩
    intro x hx hxk
    simp only [List.map_cons, List.map_nil, List.mem_singleton] at hxk
    subst hxk
    exact hk hx

theorem parseF_members_nodup :
    ∀ (n : Nat) (acc : List (String × Json)) (cs : List Char) (out : Json × List Char),
    parseF n (PMode.members acc) cs = some out → nodupKeys acc →
    ∃ kvs, out.1 = Json.obj kvs ∧ nodupKeys kvs
  | 0, acc, cs, out => by
    intro h _
    simp [parseF] at h
  | n + 1, acc, cs, out => by
    intro h hacc
    simp only [parseF] at h
    split at h
    · split at h
      · split at h
        · split at h
          · split at h
            · exact parseF_members_nodup n _ _ _ h (insertKV_nodupKeys _ _ _ hacc)
            · cases h
              exact ⟨_, rfl, insertKV_nodupKeys _ _ _ hacc⟩
            · simp at h
          · simp at h
        · simp at h
      · simp at h
    · simp at h

theorem parseF_elems_arr :
    ∀ (n : Nat) (acc : List Json) (cs : List Char) (out : Json × List Char),
    parseF n (PMode.elems acc) cs = some out → ∃ l, out.1 = Json.arr l
  | 0, acc, cs, out => by
    intro h
    simp [parseF] at h
  | n + 1, acc, cs, out => by
    intro h
    simp only [parseF] at h
    split at h
    · split at h
      · exact parseF_elems_arr n _ _ _ h
      · cases h
        exact ⟨_, rfl⟩
      · simp at h
    · simp at h

theorem parseF_val_nodup :
    ∀ (n : Nat) (cs : List Char) (kvs : List (String × Json)) (r : List Char),
    parseF n PMode.val cs = some (Json.obj kvs, r) → nodupKeys kvs
  | 0, cs, kvs, r => by
    intro h
    simp [parseF] at h
  | n + 1, cs, kvs, r => by
    intro h
    simp only [parseF] at h
    split at h
    · simp at h
    · split at h
      · split at h
        · cases h
          simp [nodupKeys]
        · have := parseF_members_nodup n [] _ _ h (by simp [nodupKeys])
          rcases this with ⟨kvs2, heq, hnd⟩
          simp only at heq
          rw [Json.obj.inj heq]
          exact hnd
      · split at h
        · split at h
          · simp at h
          · have := parseF_elems_arr n [] _ _ h
            rcases this with ⟨l, heq⟩
            simp at heq
        · split at h
          · split at h
            · simp at h
            · simp at h
          · split at h
            · split at h
              · simp at h
              · simp at h
            · split at h
              · split at h
                · simp at h
                · simp at h
              · split at h
                · split at h
                  · simp at h
                  · simp at h
                · split at h
                  · simp at h
                  · simp at h

theorem parse_obj_nodupKeys (s : String) (kvs : List (String × Json))
    (h : Json.parse s = some (Json.obj kvs)) : nodupKeys kvs := by
  unfold Json.parse at h
  split at h
  · rename_i p heq
    split at h
    · have h2 : p.1 = Json.obj kvs := Option.some.inj h
      obtain ⟨v, rest⟩ := p
      simp only at h2
      subst h2
      exact parseF_val_nodup _ _ _ _ heq
    · simp at h
  · simp at h

theorem validate_of_parse_none (raw : String) (hp : Json.parse (cleanJSON raw) = none) :
    validateLLMResponse raw = Except.error VError.notValidJSON := by
  simp [validateLLMResponse, hp]

theorem validate_of_not_obj (raw : String) (v : Json)
    (hp : Json.parse (cleanJSON raw) = some v) (hv : v.isObj = false) :
    ∃ e, validateLLMResponse raw = Except.error e := by
  cases v with
  | obj kvs => simp [Json.isObj] at hv
  | null => exact ⟨VError.notObject, by simp [validateLLMResponse, hp, jsTypeofObject, jsIsNull]⟩
  | bool b => exact ⟨VError.notObject, by simp [validateLLMResponse, hp, jsTypeofObject, jsIsNull]⟩
  | num l => exact ⟨VError.notObject, by simp [validateLLMResponse, hp, jsTypeofObject, jsIsNull]⟩
  | str s => exact ⟨VError.notObject, by simp [validateLLMResponse, hp, jsTypeofObject, jsIsNull]⟩
  | arr l =>
    exact ⟨VError.missingReply,
      by simp [validateLLMResponse, hp, jsTypeofObject, jsIsNull, jsHasKey]⟩

theorem validate_obj_missing (raw : String) (kvs : List (String × Json))
    (hp : Json.parse (cleanJSON raw) = some (Json.obj kvs))
    (hl : kvs.lookup "reply" = none) :
    validateLLMResponse raw = Except.error VError.missingReply := by
  simp [validateLLMResponse, hp, jsTypeofObject, jsIsNull, jsHasKey,
    any_key_eq_lookup_isSome, hl]

theorem validate_obj_notstring (raw : String) (kvs : List (String × Json)) (j : Json)
    (hp : Json.parse (cleanJSON raw) = some (Json.obj kvs))
    (hl : kvs.lookup "reply" = some j) (hj : j.isStr = false) :
    validateLLMResponse raw = Except.error VError.replyNotString := by
  have hs : (kvs.any fun p => p.1 == "reply") = true := by
    rw [any_key_eq_lookup_isSome, hl]
    rfl
  simp only [validateLLMResponse, hp, jsTypeofObject, jsIsNull, jsHasKey, jsGet, hs, hl]
  cases j with
  | str s => simp [Json.isStr] at hj
  | null => simp
  | bool b => simp
  | num l => simp
  | arr l => simp
  | obj kvs2 => simp

theorem validate_obj_str (raw : String) (kvs : List (String × Json)) (s : String)
    (hp : Json.parse (cleanJSON raw) = some (Json.obj kvs))
    (hl : kvs.lookup "reply" = some (Json.str s)) :
    validateLLMResponse raw =
      (if 1 < kvs.length then Except.error VError.extraFields else Except.ok ⟨s⟩) := by
  have hs : (kvs.any fun p => p.1 == "reply") = true := by
    rw [any_key_eq_lookup_isSome, hl]
    rfl
  simp [validateLLMResponse, hp, jsTypeofObject, jsIsNull, jsHasKey, jsGet, jsKeys, hs, hl]

theorem validate_ok_iff (raw : String) (s : String) :
    validateLLMResponse raw = Except.ok ⟨s⟩ ↔
    Json.parse (cleanJSON raw) = some (Json.obj [("reply", Json.str s)]) := by
  constructor
  · intro h
    cases hp : Json.parse (cleanJSON raw) with
    | none => rw [validate_of_parse_none raw hp] at h; cases h
    | some v =>
      cases v with
      | null => obtain ⟨e, he⟩ := validate_of_not_obj raw _ hp rfl; rw [he] at h; cases h
      | bool b => obtain ⟨e, he⟩ := validate_of_not_obj raw _ hp rfl; rw [he] at h; cases h
      | num l => obtain ⟨e, he⟩ := validate_of_not_obj raw _ hp rfl; rw [he] at h; cases h
      | str s2 => obtain ⟨e, he⟩ := validate_of_not_obj raw _ hp rfl; rw [he] at h; cases h
      | arr l => obtain ⟨e, he⟩ := validate_of_not_obj raw _ hp rfl; rw [he] at h; cases h
      | obj kvs =>
        cases hl : kvs.lookup "reply" with
        | none => rw [validate_obj_missing raw kvs hp hl] at h; cases h
        | some j =>
          cases j with
          | str s2 =>
            rw [validate_obj_str raw kvs s2 hp hl] at h
            by_cases hlen : 1 < kvs.length
            · rw [if_pos hlen] at h; cases h
            · rw [if_neg hlen] at h
              have hss : s2 = s := congrArg LLMReply.reply (Except.ok.inj h)
              subst hss
              cases kvs with
              | nil => simp [List.lookup] at hl
              | cons a t =>
                cases t with
                | cons b u => simp at hlen
                | nil =>
                  cases a with
                  | mk a1 a2 =>
                    by_cases ha : "reply" = a1
                    · subst ha
                      simp only [List.lookup] at hl
                      rw [show ("reply" == "reply") = true from rfl] at hl
                      simp only at hl
                      rw [Option.some.inj hl]
                    · have h2 : ("reply" == a1) = false := by simp [ha]
                      simp only [List.lookup, h2] at hl
                      cases hl
          | null => rw [validate_obj_notstring raw kvs _ hp hl rfl] at h; cases h
          | bool b => rw [validate_obj_notstring raw kvs _ hp hl rfl] at h; cases h
          | num l => rw [validate_obj_notstring raw kvs _ hp hl rfl] at h; cases h
          | arr l => rw [validate_obj_notstring raw kvs _ hp hl rfl] at h; cases h
          | obj kvs2 => rw [validate_obj_notstring raw kvs _ hp hl rfl] at h; cases h
  · intro hp
    have hl : ([("reply", Json.str s)]).lookup "reply" = some (Json.str s) := by
      simp [List.lookup]
    rw [validate_obj_str raw _ s hp hl]
    simp

theorem validate_error_iff (raw : String) :
    (∃ e, validateLLMResponse raw = Except.error e) ↔ specMalformed raw := by
  constructor
  · rintro ⟨e, he⟩
    cases hp : Json.parse (cleanJSON raw) with
    | none => exact Or.inl hp
    | some v =>
      cases v with
      | null => exact Or.inr (Or.inl ⟨_, hp, rfl⟩)
      | bool b => exact Or.inr (Or.inl ⟨_, hp, rfl⟩)
      | num l => exact Or.inr (Or.inl ⟨_, hp, rfl⟩)
      | str s => exact Or.inr (Or.inl ⟨_, hp, rfl⟩)
      | arr l => exact Or.inr (Or.inl ⟨_, hp, rfl⟩)
      | obj kvs =>
        cases hl : kvs.lookup "reply" with
        | none => exact Or.inr (Or.inr (Or.inl ⟨kvs, hp, hl⟩))
        | some j =>
          cases j with
          | str s =>
            rw [validate_obj_str raw kvs s hp hl] at he
            by_cases hlen : 1 < kvs.length
            · have hnd : nodupKeys kvs := parse_obj_nodupKeys _ _ hp
              have hlen2 : 1 < (kvs.map Prod.fst).length := by
                rw [List.length_map]
                exact hlen
              obtain ⟨k, hk, hkne⟩ := nodup_key_other_than _ hnd hlen2
              exact Or.inr (Or.inr (Or.inr (Or.inr ⟨kvs, k, hp, hk, hkne⟩)))
            · rw [if_neg hlen] at he
              cases he
          | null => exact Or.inr (Or.inr (Or.inr (Or.inl ⟨kvs, _, hp, hl, rfl⟩)))
          | bool b => exact Or.inr (Or.inr (Or.inr (Or.inl ⟨kvs, _, hp, hl, rfl⟩)))
          | num l => exact Or.inr (Or.inr (Or.inr (Or.inl ⟨kvs, _, hp, hl, rfl⟩)))
          | arr l => exact Or.inr (Or.inr (Or.inr (Or.inl ⟨kvs, _, hp, hl, rfl⟩)))
          | obj kvs2 => exact Or.inr (Or.inr (Or.inr (Or.inl ⟨kvs, _, hp, hl, rfl⟩)))
  · intro hs
    rcases hs with hp | ⟨v, hp, hv⟩ | ⟨kvs, hp, hl⟩ | ⟨kvs, j, hp, hl, hj⟩ | ⟨kvs, k, hp, hk, hkne⟩
    · exact ⟨_, validate_of_parse_none raw hp⟩
    · exact validate_of_not_obj raw v hp hv
    · exact ⟨_, validate_obj_missing raw kvs hp hl⟩
    · exact ⟨_, validate_obj_notstring raw kvs j hp hl hj⟩
    · cases hl : kvs.lookup "reply" with
      | none => exact ⟨_, validate_obj_missing raw kvs hp hl⟩
      | some j =>
        cases j with
        | str s =>
          have hmem : "reply" ∈ kvs.map Prod.fst := lookup_some_mem kvs "reply" _ hl
          have hlen : 1 < kvs.length := by
            have := two_distinct_mem_length (kvs.map Prod.fst) k "reply" hk hmem hkne
            rw [List.length_map] at this
            exact this
          refine ⟨VError.extraFields, ?_⟩
          rw [validate_obj_str raw kvs s hp hl, if_pos hlen]
        | null => exact ⟨_, validate_obj_notstring raw kvs _ hp hl rfl⟩
        | bool b => exact ⟨_, validate_obj_notstring raw kvs _ hp hl rfl⟩
        | num l => exact ⟨_, validate_obj_notstring raw kvs _ hp hl rfl⟩
        | arr l => exact ⟨_, validate_obj_notstring raw kvs _ hp hl rfl⟩
        | obj kvs2 => exact ⟨_, validate_obj_notstring raw kvs _ hp hl rfl⟩

/-- C5: `validateLLMResponse` fails exactly when, after fence stripping,
the text is not parseable as JSON, or the parsed value is not an object,
or no `reply` key is present, or `reply` is not a string, or the object
has a key other than `reply`; it succeeds with `{reply := s}` exactly when
the stripped text parses to the one-field object `{"reply": s}`; and both
the fenced and unfenced forms of `{"reply":"X"}` validate to `X`. -/
theorem c5_validate_characterization (raw : String) :
    ((∃ e, validateLLMResponse raw = Except.error e) ↔ specMalformed raw) ∧
    (∀ s, validateLLMResponse raw = Except.ok ⟨s⟩ ↔
      Json.parse (cleanJSON raw) = some (Json.obj [("reply", Json.str s)])) ∧
    validateLLMResponse "```json\n\x7b\"reply\":\"X\"\x7d\n```" = Except.ok ⟨"X"⟩ ∧
    validateLLMResponse "\x7b\"reply\":\"X\"\x7d" = Except.ok ⟨"X"⟩ :=
  ⟨validate_error_iff raw, fun s => validate_ok_iff raw s, rfl, rfl⟩

/-! ## Lemmas for the store model (C9) -/

namespace Store

theorem lookupChat_setChat (w : World) (k : Nat) (c : ChatObj) (r : Nat) :
    lookupChat (setChat w k c) r = if r = k then c else lookupChat w r := by
  unfold lookupChat setChat
  by_cases h : r = k
  · subst h
    simp [List.lookup]
  · have h2 : (r == k) = false := by simp [h]
    simp [List.lookup, h2, h]

theorem lookupMsg_setChat (w : World) (k : Nat) (c : ChatObj) (r : Nat) :
    lookupMsg (setChat w k c) r = lookupMsg w r := rfl

theorem lookupChat_setMsg (w : World) (k : Nat) (m : MsgObj) (r : Nat) :
    lookupChat (setMsg w k m) r = lookupChat w r := rfl

theorem lookupMsg_setMsg (w : World) (k : Nat) (m : MsgObj) (r : Nat) :
    lookupMsg (setMsg w k m) r = if r = k then m else lookupMsg w r := by
  unfold lookupMsg setMsg
  by_cases h : r = k
  · subst h
    simp [List.lookup]
  · have h2 : (r == k) = false := by simp [h]
    simp [List.lookup, h2, h]

theorem lookupMsg_allocMsg (w : World) (m : MsgObj) (r : Nat) :
    lookupMsg (allocMsg w m).1 r = if r = w.next then m else lookupMsg w r := by
  unfold lookupMsg allocMsg
  by_cases h : r = w.next
  · subst h
    simp [List.lookup]
  · have h2 : (r == w.next) = false := by simp [h]
    simp [List.lookup, h2, h]

theorem lookupChat_allocMsg (w : World) (m : MsgObj) (r : Nat) :
    lookupChat (allocMsg w m).1 r = lookupChat w r := rfl

theorem lookupChat_allocChat (w : World) (c : ChatObj) (r : Nat) :
    lookupChat (allocChat w c).1 r = if r = w.next then c else lookupChat w r := by
  unfold lookupChat allocChat
  by_cases h : r = w.next
  · subst h
    simp [List.lookup]
  · have h2 : (r == w.next) = false := by simp [h]
    simp [List.lookup, h2, h]

theorem lookupMsg_allocChat (w : World) (c : ChatObj) (r : Nat) :
    lookupMsg (allocChat w c).1 r = lookupMsg w r := rfl

theorem chatView_congr (w1 w2 : World) (r : Nat)
    (hc : lookupChat w2 r = lookupChat w1 r)
    (hm : ∀ m ∈ (lookupChat w1 r).msgs, lookupMsg w2 m = lookupMsg w1 m) :
    chatView w2 r = chatView w1 r := by
  unfold chatView
  rw [hc]
  dsimp only
  congr 1
  exact List.map_congr_left hm

theorem copyMsgList_spec :
    ∀ (l : List Nat) (w : World), (∀ x ∈ l, x < w.next) →
    (copyMsgList w l).1.chatHeap = w.chatHeap ∧
    (copyMsgList w l).1.store = w.store ∧
    w.next ≤ (copyMsgList w l).1.next ∧
    (∀ x, x < w.next → lookupMsg (copyMsgList w l).1 x = lookupMsg w x) ∧
    (∀ r ∈ (copyMsgList w l).2, w.next ≤ r ∧ r < (copyMsgList w l).1.next) ∧
    (copyMsgList w l).2.map (lookupMsg (copyMsgList w l).1) = l.map (lookupMsg w)
  | [], w => by
    intro _
    exact ⟨rfl, rfl, Nat.le_refl _, fun x _ => rfl, by simp [copyMsgList], rfl⟩
  | r :: rs, w => by
    intro h
    have hnext1 : (allocMsg w (lookupMsg w r)).1.next = w.next + 1 := rfl
    have hrs : ∀ x ∈ rs, x < (allocMsg w (lookupMsg w r)).1.next := by
      intro x hx
      have := h x (List.mem_cons_of_mem _ hx)
      omega
    have ih := copyMsgList_spec rs (allocMsg w (lookupMsg w r)).1 hrs
    have hcons : copyMsgList w (r :: rs) =
        ((copyMsgList (allocMsg w (lookupMsg w r)).1 rs).1,
          w.next :: (copyMsgList (allocMsg w (lookupMsg w r)).1 rs).2) := rfl
    rw [hcons]
    dsimp only
    refine ⟨ih.1, ih.2.1, by omega, ?_, ?_, ?_⟩
    · intro x hx
      have hx1 : x < (allocMsg w (lookupMsg w r)).1.next := by omega
      rw [ih.2.2.2.1 x hx1, lookupMsg_allocMsg]
      rw [if_neg (by omega)]
    · intro r2 hr2
      rcases List.mem_cons.mp hr2 with h1 | h1
      · subst h1
        constructor
        · exact Nat.le_refl _
        · have := ih.2.2.1
          omega
      · have := ih.2.2.2.2.1 r2 h1
        constructor
        · omega
        · exact this.2
    · simp only [List.map_cons]
      have hhead : lookupMsg (copyMsgList (allocMsg w (lookupMsg w r)).1 rs).1 w.next =
          lookupMsg w r := by
        rw [ih.2.2.2.1 w.next (by omega), lookupMsg_allocMsg, if_pos rfl]
      rw [hhead, ih.2.2.2.2.2]
      congr 1
      apply List.map_congr_left
      intro x hx
      rw [lookupMsg_allocMsg, if_neg (by have := h x (List.mem_cons_of_mem _ hx); omega)]

theorem allocChat_store (w : World) (c : ChatObj) : (allocChat w c).1.store = w.store := rfl

theorem allocChat_next (w : World) (c : ChatObj) : (allocChat w c).1.next = w.next + 1 := rfl

theorem lookupChat_of_chatHeap_eq (w1 w2 : World) (x : Nat)
    (h : w2.chatHeap = w1.chatHeap) : lookupChat w2 x = lookupChat w1 x := by
  unfold lookupChat
  rw [h]

theorem copyChat_spec (w : World) (r : Nat) (h1 : r < w.next)
    (h2 : ∀ m ∈ (lookupChat w r).msgs, m < w.next) :
    (copyChat w r).1.store = w.store ∧
    w.next ≤ (copyChat w r).1.next ∧
    (w.next ≤ (copyChat w r).2 ∧ (copyChat w r).2 < (copyChat w r).1.next) ∧
    (∀ x, x < w.next → lookupChat (copyChat w r).1 x = lookupChat w x) ∧
    (∀ x, x < w.next → lookupMsg (copyChat w r).1 x = lookupMsg w x) ∧
    chatView (copyChat w r).1 (copyChat w r).2 = chatView w r ∧
    (∀ m ∈ (lookupChat (copyChat w r).1 (copyChat w r).2).msgs,
      w.next ≤ m ∧ m < (copyChat w r).1.next) := by
  have spec := copyMsgList_spec (lookupChat w r).msgs w h2
  have e1 : (copyChat w r).1 = (allocChat (copyMsgList w (lookupChat w r).msgs).1
      ⟨(lookupChat w r).name, (lookupChat w r).summary, (lookupChat w r).historyString,
        (copyMsgList w (lookupChat w r).msgs).2⟩).1 := rfl
  have e2 : (copyChat w r).2 = (copyMsgList w (lookupChat w r).msgs).1.next := rfl
  rw [e1, e2]
  rw [allocChat_store, allocChat_next, spec.2.1]
  have hfresh : lookupChat (allocChat (copyMsgList w (lookupChat w r).msgs).1
      ⟨(lookupChat w r).name, (lookupChat w r).summary, (lookupChat w r).historyString,
        (copyMsgList w (lookupChat w r).msgs).2⟩).1
      (copyMsgList w (lookupChat w r).msgs).1.next =
      ⟨(lookupChat w r).name, (lookupChat w r).summary, (lookupChat w r).historyString,
        (copyMsgList w (lookupChat w r).msgs).2⟩ := by
    rw [lookupChat_allocChat, if_pos rfl]
  refine ⟨rfl, by omega, ⟨by omega, by omega⟩, ?_, ?_, ?_, ?_⟩
  · intro x hx
    rw [lookupChat_allocChat, if_neg (by omega)]
    exact lookupChat_of_chatHeap_eq w (copyMsgList w (lookupChat w r).msgs).1 x spec.1
  · intro x hx
    rw [lookupMsg_allocChat]
    exact spec.2.2.2.1 x hx
  · unfold chatView
    rw [hfresh]
    dsimp only
    have hmapf : (copyMsgList w (lookupChat w r).msgs).2.map
        (lookupMsg (allocChat (copyMsgList w (lookupChat w r).msgs).1
          ⟨(lookupChat w r).name, (lookupChat w r).summary, (lookupChat w r).historyString,
            (copyMsgList w (lookupChat w r).msgs).2⟩).1) =
        (copyMsgList w (lookupChat w r).msgs).2.map
          (lookupMsg (copyMsgList w (lookupChat w r).msgs).1) :=
      List.map_congr_left (fun m _ => lookupMsg_allocChat _ _ m)
    rw [hmapf, spec.2.2.2.2.2]
  · intro m hm
    rw [hfresh] at hm
    have := spec.2.2.2.2.1 m hm
    omega

theorem copyChats_spec :
    ∀ (l : List Nat) (w : World),
    (∀ x ∈ l, x < w.next ∧ ∀ m ∈ (lookupChat w x).msgs, m < w.next) →
    (copyChats w l).1.store = w.store ∧
    w.next ≤ (copyChats w l).1.next ∧
    (∀ x, x < w.next → lookupChat (copyChats w l).1 x = lookupChat w x) ∧
    (∀ x, x < w.next → lookupMsg (copyChats w l).1 x = lookupMsg w x) ∧
    (∀ r ∈ (copyChats w l).2, w.next ≤ r ∧ r < (copyChats w l).1.next ∧
      ∀ m ∈ (lookupChat (copyChats w l).1 r).msgs, w.next ≤ m ∧ m < (copyChats w l).1.next) ∧
    (copyChats w l).2.map (chatView (copyChats w l).1) = l.map (chatView w)
  | [], w => by
    intro _
    exact ⟨rfl, Nat.le_refl _, fun x _ => rfl, fun x _ => rfl, by simp [copyChats], rfl⟩
  | r :: rs, w => by
    intro h
    have hr := h r (List.mem_cons_self r rs)
    obtain ⟨cs1, cs2, ⟨cs3a, cs3b⟩, cs4, cs5, cs6, cs7⟩ := copyChat_spec w r hr.1 hr.2
    have hrs : ∀ x ∈ rs, x < (copyChat w r).1.next ∧
        ∀ m ∈ (lookupChat (copyChat w r).1 x).msgs, m < (copyChat w r).1.next := by
      intro x hx
      have hx0 := h x (List.mem_cons_of_mem _ hx)
      refine ⟨by omega, ?_⟩
      rw [cs4 x hx0.1]
      intro m hm
      have := hx0.2 m hm
      omega
    obtain ⟨ih1, ih2, ih3, ih4, ih5, ih6⟩ := copyChats_spec rs (copyChat w r).1 hrs
    have hcons : copyChats w (r :: rs) =
        ((copyChats (copyChat w r).1 rs).1,
          (copyChat w r).2 :: (copyChats (copyChat w r).1 rs).2) := rfl
    rw [hcons]
    dsimp only
    refine ⟨ih1.trans cs1, by omega, ?_, ?_, ?_, ?_⟩
    · intro x hx
      rw [ih3 x (by omega), cs4 x hx]
    · intro x hx
      rw [ih4 x (by omega), cs5 x hx]
    · intro r2 hr2
      rcases List.mem_cons.mp hr2 with h1 | h1
      · subst h1
        refine ⟨by omega, by omega, ?_⟩
        rw [ih3 (copyChat w r).2 cs3b]
        intro m hm
        have := cs7 m hm
        omega
      · have := ih5 r2 h1
        exact ⟨by omega, this.2.1, fun m hm => by have := this.2.2 m hm; omega⟩
    · simp only [List.map_cons]
      have hhead : chatView (copyChats (copyChat w r).1 rs).1 (copyChat w r).2 =
          chatView (copyChat w r).1 (copyChat w r).2 := by
        apply chatView_congr
        · exact ih3 (copyChat w r).2 cs3b
        · intro m hm
          have := cs7 m hm
          exact ih4 m (by omega)
      rw [hhead, cs6, ih6]
      congr 1
      apply List.map_congr_left
      intro x hx
      have hx0 := h x (List.mem_cons_of_mem _ hx)
      apply chatView_congr
      · exact cs4 x hx0.1
      · intro m hm
        exact cs5 m (hx0.2 m hm)

theorem makeChat_store (w : World) (name : String) :
    (makeChat w name).1.store = w.store ++ [w.next] := rfl

theorem makeChat_next (w : World) (name : String) :
    (makeChat w name).1.next = w.next + 1 := rfl

theorem lookupChat_makeChat (w : World) (name : String) (r : Nat) :
    lookupChat (makeChat w name).1 r =
      if r = w.next then ⟨name, "", "", []⟩ else lookupChat w r := by
  have e : lookupChat (makeChat w name).1 r = lookupChat (allocChat w ⟨name, "", "", []⟩).1 r := rfl
  rw [e, lookupChat_allocChat]

theorem lookupMsg_makeChat (w : World) (name : String) (r : Nat) :
    lookupMsg (makeChat w name).1 r = lookupMsg w r := rfl

theorem lookupChat_renameChat (w : World) (r : Nat) (n : String) (x : Nat) :
    lookupChat (renameChat w r n) x =
      if x = r then { lookupChat w r with name := n } else lookupChat w x :=
  lookupChat_setChat w r _ x

theorem lookupChat_pushMsg (w : World) (r : Nat) (m : MsgObj) (x : Nat) :
    lookupChat (pushMsg w r m) x =
      if x = r then { lookupChat w r with msgs := (lookupChat w r).msgs ++ [w.next] }
      else lookupChat w x := by
  have e : pushMsg w r m = setChat (allocMsg w m).1 r
      { lookupChat (allocMsg w m).1 r with
        msgs := (lookupChat (allocMsg w m).1 r).msgs ++ [(allocMsg w m).2] } := rfl
  rw [e, lookupChat_setChat]
  rfl

theorem lookupMsg_pushMsg (w : World) (r : Nat) (m : MsgObj) (x : Nat) :
    lookupMsg (pushMsg w r m) x = if x = w.next then m else lookupMsg w x := by
  have e : lookupMsg (pushMsg w r m) x = lookupMsg (allocMsg w m).1 x := rfl
  rw [e, lookupMsg_allocMsg]

theorem pushMsg_store (w : World) (r : Nat) (m : MsgObj) : (pushMsg w r m).store = w.store := rfl

theorem pushMsg_next (w : World) (r : Nat) (m : MsgObj) : (pushMsg w r m).next = w.next + 1 := rfl

theorem applyOp_next_mono (w : World) (op : StoreOp) : w.next ≤ (applyOp w op).next := by
  cases op with
  | create name => rw [applyOp, makeChat_next]; omega
  | rename r n => exact Nat.le_refl _
  | delete r => exact Nat.le_refl _
  | arrive r m => rw [applyOp, pushMsg_next]; omega

theorem wf_W0 : wf W0 := by
  intro r hr
  simp [W0] at hr

theorem wf_applyOp (w : World) (op : StoreOp) (h : wf w) : wf (applyOp w op) := by
  cases op with
  | create name =>
    intro s hs
    rw [applyOp, makeChat_store] at hs
    rw [applyOp, makeChat_next, lookupChat_makeChat]
    rcases List.mem_append.mp hs with h1 | h1
    · have := h s h1
      rw [if_neg (by omega)]
      refine ⟨by omega, ?_⟩
      intro m hm
      have := this.2 m hm
      omega
    · have hsn : s = w.next := by simpa using h1
      rw [if_pos hsn]
      refine ⟨by omega, ?_⟩
      intro m hm
      simp at hm
  | rename r n =>
    intro s hs
    have hs0 := h s hs
    rw [applyOp, lookupChat_renameChat]
    by_cases he : s = r
    · subst he
      rw [if_pos rfl]
      exact ⟨hs0.1, hs0.2⟩
    · rw [if_neg he]
      exact hs0
  | delete r =>
    intro s hs
    have hs1 : s ∈ w.store := by
      have : s ∈ w.store.filter (fun x => x ≠ r) := hs
      exact (List.mem_filter.mp this).1
    exact h s hs1
  | arrive r m =>
    intro s hs
    rw [applyOp, pushMsg_store] at hs
    have hs0 := h s hs
    rw [applyOp, pushMsg_next, lookupChat_pushMsg]
    by_cases he : s = r
    · subst he
      rw [if_pos rfl]
      refine ⟨by omega, ?_⟩
      intro m2 hm2
      rcases List.mem_append.mp hm2 with h1 | h1
      · have := hs0.2 m2 h1
        omega
      · have : m2 = w.next := by simpa using h1
        omega
    · rw [if_neg he]
      refine ⟨by omega, ?_⟩
      intro m2 hm2
      have := hs0.2 m2 hm2
      omega

theorem wf_applyOps (w : World) (ops : List StoreOp) (h : wf w) : wf (applyOps w ops) := by
  induction ops generalizing w with
  | nil => exact h
  | cons op t ih => exact ih _ (wf_applyOp w op h)

theorem not_mem_store_applyOp (w : World) (op : StoreOp) (r : Nat)
    (hnm : r ∉ w.store) (hlt : r < w.next) :
    r ∉ (applyOp w op).store ∧ r < (applyOp w op).next := by
  cases op with
  | create name =>
    rw [applyOp, makeChat_store, makeChat_next]
    refine ⟨?_, by omega⟩
    intro hmem
    rcases List.mem_append.mp hmem with h1 | h1
    · exact hnm h1
    · have : r = w.next := by simpa using h1
      omega
  | rename r2 n => exact ⟨hnm, hlt⟩
  | delete r2 =>
    refine ⟨?_, hlt⟩
    intro hmem
    exact hnm (List.mem_filter.mp hmem).1
  | arrive r2 m =>
    rw [applyOp, pushMsg_store, pushMsg_next]
    exact ⟨hnm, by omega⟩

theorem not_mem_store_applyOps (w : World) (ops : List StoreOp) (r : Nat)
    (hnm : r ∉ w.store) (hlt : r < w.next) : r ∉ (applyOps w ops).store := by
  induction ops generalizing w with
  | nil => exact hnm
  | cons op t ih =>
    have := not_mem_store_applyOp w op r hnm hlt
    exact ih _ this.1 this.2

theorem chatView_setChat_ne (w : World) (k : Nat) (c : ChatObj) (s : Nat) (h : s ≠ k) :
    chatView (setChat w k c) s = chatView w s := by
  apply chatView_congr
  · rw [lookupChat_setChat, if_neg h]
  · intro m _
    rfl

theorem storeView_setChat (w : World) (k : Nat) (c : ChatObj)
    (h : ∀ s ∈ w.store, s ≠ k) : storeView (setChat w k c) = storeView w := by
  unfold storeView
  have e : (setChat w k c).store = w.store := rfl
  rw [e]
  apply List.map_congr_left
  intro s hs
  exact chatView_setChat_ne w k c s (h s hs)

theorem chatView_setMsg_ne (w : World) (k : Nat) (mv : MsgObj) (s : Nat)
    (h : ∀ m ∈ (lookupChat w s).msgs, m ≠ k) :
    chatView (setMsg w k mv) s = chatView w s := by
  apply chatView_congr
  · rfl
  · intro m hm
    rw [lookupMsg_setMsg, if_neg (h m hm)]

theorem storeView_setMsg (w : World) (k : Nat) (mv : MsgObj)
    (h : ∀ s ∈ w.store, ∀ m ∈ (lookupChat w s).msgs, m ≠ k) :
    storeView (setMsg w k mv) = storeView w := by
  unfold storeView
  have e : (setMsg w k mv).store = w.store := rfl
  rw [e]
  apply List.map_congr_left
  intro s hs
  exact chatView_setMsg_ne w k mv s (h s hs)

end Store

namespace Store

/-- C9: over every sequence of store operations from a fresh store,
`getChats` returns copies whose dereferenced values are exactly the
currently registered conversations in registration order, without
touching the registry; a conversation deleted at any point never appears
in the registry again; and because the returned chat objects and their
message objects are fresh, overwriting any of them leaves what the store's
readers see unchanged (deep copies, element-wise). -/
theorem c9_store_list_deep_copies (ops : List StoreOp) :
    ((getChats (applyOps W0 ops)).2.map (chatView (getChats (applyOps W0 ops)).1) =
      storeView (applyOps W0 ops)) ∧
    ((getChats (applyOps W0 ops)).1.store = (applyOps W0 ops).store) ∧
    (∀ (pre : List StoreOp) (r : Nat) (post : List StoreOp), r < (applyOps W0 pre).next →
      r ∉ (applyOps (applyOp (applyOps W0 pre) (StoreOp.delete r)) post).store) ∧
    (∀ r2 ∈ (getChats (applyOps W0 ops)).2, ∀ c,
      storeView (setChat (getChats (applyOps W0 ops)).1 r2 c) =
        storeView (getChats (applyOps W0 ops)).1) ∧
    (∀ r2 ∈ (getChats (applyOps W0 ops)).2,
      ∀ m ∈ (lookupChat (getChats (applyOps W0 ops)).1 r2).msgs,
      ∀ mv, storeView (setMsg (getChats (applyOps W0 ops)).1 m mv) =
        storeView (getChats (applyOps W0 ops)).1) := by
  have hwf : wf (applyOps W0 ops) := wf_applyOps W0 ops wf_W0
  obtain ⟨s1, s2, s3, s4, s5, s6⟩ :=
    copyChats_spec (applyOps W0 ops).store (applyOps W0 ops) (fun x hx => hwf x hx)
  have egc : getChats (applyOps W0 ops) = copyChats (applyOps W0 ops) (applyOps W0 ops).store :=
    rfl
  refine ⟨?_, ?_, ?_, ?_, ?_⟩
  · rw [egc]
    exact s6
  · rw [egc]
    exact s1
  · intro pre r post hlt
    apply not_mem_store_applyOps
    · show r ∉ (deleteChat (applyOps W0 pre) r).store
      intro hmem
      have := List.mem_filter.mp hmem
      simp at this
    · exact hlt
  · intro r2 hr2 c
    rw [egc] at hr2 ⊢
    apply storeView_setChat
    intro s hs
    rw [s1] at hs
    have hslt := (hwf s hs).1
    have := (s5 r2 hr2).1
    omega
  · intro r2 hr2 m hm mv
    rw [egc] at hr2 hm ⊢
    apply storeView_setMsg
    intro s hs m2 hm2
    rw [s1] at hs
    have hslt := (hwf s hs).1
    rw [s3 s hslt] at hm2
    have hm2lt := (hwf s hs).2 m2 hm2
    have := (s5 r2 hr2).2.2 m hm
    omega

/-- C9 (witness): concrete instances — after `create "a"` then `delete`,
the deleted reference never reappears even after another create; and
mutating the copy returned by `getChats` (or its copied message object)
leaves the store's view unchanged. -/
theorem c9_store_witness :
    (0 ∉ (applyOps (applyOp (applyOps W0 [StoreOp.create "a"]) (StoreOp.delete 0))
      [StoreOp.create "b"]).store) ∧
    (storeView (setChat (getChats (applyOps W0
        [StoreOp.create "a", StoreOp.arrive 0 ⟨"user", "Hi", 0⟩])).1 3 ⟨"z", "z", "z", []⟩) =
      storeView (getChats (applyOps W0
        [StoreOp.create "a", StoreOp.arrive 0 ⟨"user", "Hi", 0⟩])).1) ∧
    (storeView (setMsg (getChats (applyOps W0
        [StoreOp.create "a", StoreOp.arrive 0 ⟨"user", "Hi", 0⟩])).1 2 ⟨"x", "y", 9⟩) =
      storeView (getChats (applyOps W0
        [StoreOp.create "a", StoreOp.arrive 0 ⟨"user", "Hi", 0⟩])).1) :=
  ⟨(c9_store_list_deep_copies []).2.2.1 [StoreOp.create "a"] 0 [StoreOp.create "b"]
      (by decide),
    (c9_store_list_deep_copies [StoreOp.create "a", StoreOp.arrive 0 ⟨"user", "Hi", 0⟩]).2.2.2.1
      3 (by decide) ⟨"z", "z", "z", []⟩,
    (c9_store_list_deep_copies [StoreOp.create "a", StoreOp.arrive 0 ⟨"user", "Hi", 0⟩]).2.2.2.2
      3 (by decide) 2 (by decide) ⟨"x", "y", 9⟩⟩

end Store
